import Mathlib

/-!
Shallow embedding of the Brother PT serial printer driver (ptpc_driver.py).

The driver's pure logic is modelled as Lean functions:
* `safe_send` — the chunked transmission loop (`safe_send` in the source):
  it slices `data[i:i+chunk_size]` for `i = 0, chunk_size, 2*chunk_size, ...`,
  writing each slice followed by a flush and a 20 ms pacing sleep.  The loop
  is embedded with an explicit fuel argument equal to `data.length`, which
  bounds the number of iterations whenever `chunk_size > 0` (the only way the
  source calls it; Python's `range` rejects a zero step).
* `parse_status_byte`, `check_status` — status-response decoding.  The serial
  read is abstracted: `check_status` takes the raw response bytes and returns
  `none` exactly when fewer or more than 32 bytes arrived, mirroring the
  `len(response) != 32` early return; otherwise it exposes bytes 8, 9 and 10.
* `wait_for_printer_ready` — the bounded 5-attempt readiness poll.  The
  sequence of raw responses the device would deliver to successive polls is a
  function `Nat → List Nat`; the result records the boolean outcome together
  with the number of polls actually performed.
* `col_bits`, `band_bytes`, `generate_full_bands` — the bitmap-to-band
  encoder.  A canvas is a row-major `List (List Nat)` of 0/1 cells;
  `generate_full_bands` fails (Python `IndexError` on `canvas[0]`) exactly
  when the canvas has no rows.
* `band_header`, `send_band_writes` — the per-band writes issued by `main`:
  the 5-byte band header (`1B 2A` then decimal 39 then the width low/high
  bytes), the chunked band data, and the `0D 0A` terminator.

Machine integers are embedded as `Nat` with explicit masking where the source
masks (`& 0xFF`, `>> 8`, `& 2`, `|`, `<<`), using `Nat`'s bitwise operators.
-/

namespace PTPC

/-- Band height in dot rows (`BAND_HEIGHT = 24` in the source). -/
def BAND_HEIGHT : Nat := 24

/-- Safe printable height in dots (`SAFE_PRINT_HEIGHT = 120`, 5 bands). -/
def SAFE_PRINT_HEIGHT : Nat := 120

/-- One observable transport action performed by `safe_send`. -/
inductive SerialEvent where
  | write (bytes : List Nat)
  | flush
  | sleep (ms : Nat)
  deriving DecidableEq, Repr

/-- Fuel-indexed chunking loop of `safe_send`: while the remaining data `d`
(= `data[i:]`) is nonempty, emit the slice `d[0:chunk_size]`
(= `data[i:i+chunk_size]`) and continue with `d[chunk_size:]`
(advancing `i` by `chunk_size`).  The fuel starts at `data.length`, which
bounds the iteration count of the Python `for i in range(0, total_len,
chunk_size)` loop whenever `chunk_size > 0`. -/
def safe_send_go (chunk_size : Nat) : Nat → List Nat → List (List Nat)
  | 0, _ => []
  | _ + 1, [] => []
  | fuel + 1, d => d.take chunk_size :: safe_send_go chunk_size fuel (d.drop chunk_size)

/-- The ordered list of chunks written by `safe_send(ser, data, chunk_size)`:
the consecutive slices `data[0:chunk_size]`, `data[chunk_size:2*chunk_size]`,
and so on. -/
def safe_send (data : List Nat) (chunk_size : Nat) : List (List Nat) :=
  safe_send_go chunk_size data.length data

/-- The full event trace of `safe_send`: each chunk is written, the port is
flushed, and the loop sleeps 20 ms (`time.sleep(0.02)`) before the next
chunk. -/
def safe_send_events (data : List Nat) (chunk_size : Nat) : List SerialEvent :=
  ((safe_send data chunk_size).map
    (fun chunk => [SerialEvent.write chunk, SerialEvent.flush, SerialEvent.sleep 20])).flatten

/-- `parse_status_byte(byte_val, mapping)`: the descriptions of the mapping
entries whose bit is set in `byte_val` (`byte_val & (1 << bit)` nonzero),
in mapping order. -/
def parse_status_byte (byte_val : Nat) (mapping : List (Nat × String)) : List String :=
  mapping.filterMap (fun p => if byte_val &&& (1 <<< p.1) ≠ 0 then some p.2 else none)

/-- `err1_map`: the three known bits of error-class-1 (response byte 8). -/
def err1_map : List (Nat × String) :=
  [(0, "NO TAPE"), (1, "TAPE END"), (2, "CUTTER JAM")]

/-- `err2_map`: the four known bits of error-class-2 (response byte 9). -/
def err2_map : List (Nat × String) :=
  [(0, "TAPE CHANGE ERR"), (1, "PRINT BUFFER FULL"),
   (2, "TRANSMISSION ERR"), (3, "RX BUFFER FULL")]

/-- The error-name list computed inside `check_status`:
`parse_status_byte(response[8], err1_map) + parse_status_byte(response[9], err2_map)`. -/
def classify_errors (err1 err2 : Nat) : List String :=
  parse_status_byte err1 err1_map ++ parse_status_byte err2 err2_map

/-- The fields `check_status` reads from a complete 32-byte response:
byte 8 (error-class-1), byte 9 (error-class-2), byte 10 (tape width, mm). -/
structure StatusReport where
  err1 : Nat
  err2 : Nat
  tapeWidth : Nat
  deriving DecidableEq, Repr

/-- `check_status`: reads the raw response; if it is not exactly 32 bytes the
function returns `None` (no fields are extracted), otherwise the three named
bytes are available to the caller. -/
def check_status (response : List Nat) : Option StatusReport :=
  if response.length = 32 then
    some { err1 := response.getD 8 0, err2 := response.getD 9 0,
           tapeWidth := response.getD 10 0 }
  else none

/-- Outcome of one iteration of the `wait_for_printer_ready` loop body. -/
inductive PollDecision where
  | ready
  | abort
  | retry
  deriving DecidableEq, Repr

/-- One iteration of the `wait_for_printer_ready` loop body on the raw
response of that poll: if the response decoded (`response is not None`) and
`response[8] == 0 and response[9] == 0`, return `True`; otherwise if
`response[9] & 2` is nonzero, return `False`; otherwise sleep and retry. -/
def poll_step (response : List Nat) : PollDecision :=
  match check_status response with
  | none => PollDecision.retry
  | some r =>
    if r.err1 = 0 ∧ r.err2 = 0 then PollDecision.ready
    else if r.err2 &&& 2 ≠ 0 then PollDecision.abort
    else PollDecision.retry

/-- The polling loop of `wait_for_printer_ready`, started at poll index `i`
with the given number of remaining attempts.  Returns the boolean result of
the Python function together with the total number of polls performed. -/
def wait_aux (responses : Nat → List Nat) : Nat → Nat → Bool × Nat
  | i, 0 => (false, i)
  | i, fuel + 1 =>
    match poll_step (responses i) with
    | PollDecision.ready => (true, i + 1)
    | PollDecision.abort => (false, i + 1)
    | PollDecision.retry => wait_aux responses (i + 1) fuel

/-- `wait_for_printer_ready`: up to 5 polls (`for _ in range(5)`), each
receiving the next raw response from the device; paired with the number of
polls used. -/
def wait_for_printer_ready (responses : Nat → List Nat) : Bool × Nat :=
  wait_aux responses 0 5

/-- A response on which the loop returns `True`: it decoded (32 bytes) and
both error-class bytes are zero. -/
def status_ready (response : List Nat) : Prop :=
  response.length = 32 ∧ response.getD 8 0 = 0 ∧ response.getD 9 0 = 0

/-- A response on which the loop aborts with `False`: it decoded (32 bytes)
and bit 1 of error-class-2 (the bit the source tests with `response[9] & 2`)
is set. -/
def status_abort (response : List Nat) : Prop :=
  response.length = 32 ∧ (response.getD 9 0).testBit 1

instance (response : List Nat) : Decidable (status_ready response) := by
  unfold status_ready; infer_instance

instance (response : List Nat) : Decidable (status_abort response) := by
  unfold status_abort; infer_instance

/-- The 24-bit column word built by the inner loop of `generate_full_bands`
for the column `x` of the band starting at `start_row`: bit `23 - bit_offset`
is set iff row `start_row + bit_offset` exists in the canvas and its cell at
column `x` is truthy (nonzero). -/
def col_bits (canvas : List (List Nat)) (start_row x : Nat) : Nat :=
  (List.range BAND_HEIGHT).foldl
    (fun acc bit_offset =>
      if start_row + bit_offset < canvas.length ∧
          (canvas.getD (start_row + bit_offset) []).getD x 0 ≠ 0 then
        acc ||| (1 <<< (23 - bit_offset))
      else acc)
    0

/-- The three bytes `generate_full_bands` appends for one column word:
`(col_bits >> 16) & 0xFF`, `(col_bits >> 8) & 0xFF`, `col_bits & 0xFF`. -/
def encode3 (w : Nat) : List Nat :=
  [(w >>> 16) &&& 0xFF, (w >>> 8) &&& 0xFF, w &&& 0xFF]

/-- The byte buffer of one band: the per-column 3-byte triples concatenated
in ascending column order `x = 0, 1, ..., width - 1`. -/
def band_bytes (canvas : List (List Nat)) (start_row width : Nat) : List Nat :=
  ((List.range width).map (fun x => encode3 (col_bits canvas start_row x))).flatten

/-- `generate_full_bands(canvas)`: reads `width = len(canvas[0])` (an
`IndexError`, hence `none`, on an empty canvas) and builds exactly 5 bands,
band `band_idx` starting at row `band_idx * BAND_HEIGHT`; each band is the
pair of its byte buffer and the width. -/
def generate_full_bands (canvas : List (List Nat)) : Option (List (List Nat × Nat)) :=
  match canvas with
  | [] => none
  | row0 :: _ =>
    some ((List.range 5).map
      (fun band_idx =>
        (band_bytes canvas (band_idx * BAND_HEIGHT) row0.length, row0.length)))

/-- The band-header bytes `main` writes before a band's data:
`bytearray([0x1B, 0x2A, 39, width & 0xFF, (width >> 8) & 0xFF])`
(the third byte is the decimal literal 39). -/
def band_header (width : Nat) : List Nat :=
  [0x1B, 0x2A, 39, width &&& 0xFF, (width >>> 8) &&& 0xFF]

/-- The ordered writes `main` issues for one band: the band header, then the
chunked band data, then the `0D 0A` line terminator. -/
def send_band_writes (band_data : List Nat) (width : Nat) : List (List Nat) :=
  band_header width :: (safe_send band_data 32 ++ [[0x0D, 0x0A]])

/-- A complete 32-byte status response with no error bits set. -/
def zero_status : List Nat := List.replicate 32 0

/-- A complete 32-byte status response whose error-class-2 byte has only
bit 3 (rx-buffer-full, mask 0x08) set. -/
def rx_full_status : List Nat := (List.replicate 32 0).set 9 8

/-- A complete 32-byte status response whose error-class-2 byte has only
bit 1 (print-buffer-full, mask 0x02) set. -/
def print_buffer_full_status : List Nat := (List.replicate 32 0).set 9 2

/-- A device whose first polled response reports rx-buffer-full and whose
later responses are error-free. -/
def rx_then_clear (i : Nat) : List Nat :=
  if i = 0 then rx_full_status else zero_status

/-- A device whose first polled response reports print-buffer-full and whose
later responses (in particular the third) are error-free. -/
def abort_then_clear (i : Nat) : List Nat :=
  if i = 0 then print_buffer_full_status else zero_status

theorem safe_send_go_nil (cs fuel : Nat) : safe_send_go cs fuel [] = [] := by
  cases fuel <;> rfl

theorem safe_send_go_cons (cs fuel : Nat) (d : List Nat) (hd : d ≠ []) :
    safe_send_go cs (fuel + 1) d = d.take cs :: safe_send_go cs fuel (d.drop cs) := by
  cases d with
  | nil => exact absurd rfl hd
  | cons a l => rfl

theorem safe_send_go_flatten (cs : Nat) (hcs : 0 < cs) :
    ∀ fuel (d : List Nat), d.length ≤ fuel → (safe_send_go cs fuel d).flatten = d := by
  intro fuel
  induction fuel with
  | zero =>
    intro d hd
    have h0 : d = [] := List.eq_nil_of_length_eq_zero (Nat.le_zero.mp hd)
    subst h0
    rfl
  | succ n ih =>
    intro d hd
    by_cases hne : d = []
    · subst hne; rw [safe_send_go_nil]; rfl
    · rw [safe_send_go_cons _ _ _ hne]
      simp only [List.flatten_cons]
      rw [ih (d.drop cs) ?_]
      · exact List.take_append_drop cs d
      · have hlen : 0 < d.length := List.length_pos.mpr hne
        simp only [List.length_drop]
        omega

theorem safe_send_flatten (data : List Nat) (cs : Nat) (hcs : 0 < cs) :
    (safe_send data cs).flatten = data :=
  safe_send_go_flatten cs hcs data.length data (Nat.le_refl _)

theorem safe_send_go_chunk_le (cs : Nat) :
    ∀ fuel (d : List Nat), ∀ c ∈ safe_send_go cs fuel d, c.length ≤ cs := by
  intro fuel
  induction fuel with
  | zero =>
    intro d c hc
    simp [safe_send_go] at hc
  | succ n ih =>
    intro d c hc
    by_cases hne : d = []
    · subst hne; rw [safe_send_go_nil] at hc; simp at hc
    · rw [safe_send_go_cons _ _ _ hne] at hc
      rcases List.mem_cons.mp hc with h | h
      · subst h
        simp [List.length_take]
      · exact ih _ c h

theorem safe_send_go_dropLast (cs : Nat) (hcs : 0 < cs) :
    ∀ fuel (d : List Nat), d.length ≤ fuel →
      ∀ c ∈ (safe_send_go cs fuel d).dropLast, c.length = cs := by
  intro fuel
  induction fuel with
  | zero =>
    intro d hd c hc
    have h0 : d = [] := List.eq_nil_of_length_eq_zero (Nat.le_zero.mp hd)
    subst h0
    simp [safe_send_go] at hc
  | succ n ih =>
    intro d hd c hc
    by_cases hne : d = []
    · subst hne; rw [safe_send_go_nil] at hc; simp at hc
    · rw [safe_send_go_cons _ _ _ hne] at hc
      cases hrest : safe_send_go cs n (d.drop cs) with
      | nil => rw [hrest] at hc; simp at hc
      | cons r rs =>
        rw [hrest] at hc
        rw [List.dropLast_cons₂] at hc
        rcases List.mem_cons.mp hc with h | h
        · subst h
          have hdrop : d.drop cs ≠ [] := by
            intro h0
            rw [h0, safe_send_go_nil] at hrest
            exact List.noConfusion hrest
          have hcs_le : cs ≤ d.length := by
            have hp := List.length_pos.mpr hdrop
            simp only [List.length_drop] at hp
            omega
          simp [List.length_take]
          omega
        · have hdlen : (d.drop cs).length ≤ n := by
            have hp : 0 < d.length := List.length_pos.mpr hne
            simp only [List.length_drop]
            omega
          exact ih (d.drop cs) hdlen c (by rw [hrest]; exact h)

/-- C8: `safe_send` with chunk size 32 writes the consecutive slices of the
data in order — each chunk is at most 32 bytes, every chunk except possibly
the last is exactly 32 bytes, and the chunks concatenate back to the input;
a 100-byte buffer is sent as exactly 4 writes of sizes 32, 32, 32, 4 in
order, each write followed by a flush and the 20 ms pacing delay. -/
theorem safe_send_chunking (data : List Nat) :
    (safe_send data 32).flatten = data ∧
    (∀ c ∈ safe_send data 32, c.length ≤ 32) ∧
    (∀ c ∈ (safe_send data 32).dropLast, c.length = 32) ∧
    (safe_send (List.replicate 100 0) 32).map List.length = [32, 32, 32, 4] ∧
    safe_send_events (List.replicate 100 0) 32 =
      [SerialEvent.write (List.replicate 32 0), SerialEvent.flush, SerialEvent.sleep 20,
       SerialEvent.write (List.replicate 32 0), SerialEvent.flush, SerialEvent.sleep 20,
       SerialEvent.write (List.replicate 32 0), SerialEvent.flush, SerialEvent.sleep 20,
       SerialEvent.write (List.replicate 4 0), SerialEvent.flush, SerialEvent.sleep 20] := by
  refine ⟨safe_send_flatten data 32 (by omega),
          safe_send_go_chunk_le 32 data.length data,
          safe_send_go_dropLast 32 (by omega) data.length data (Nat.le_refl _),
          by decide, by decide⟩

/-- Witness for C8 at a concrete 100-byte buffer. -/
theorem safe_send_chunking_witness :
    (safe_send (List.replicate 100 0) 32).flatten = List.replicate 100 0 :=
  (safe_send_chunking (List.replicate 100 0)).1

/-- C6: `check_status` yields no report when the response is not exactly
32 bytes, and the three named fields (bytes 8, 9, 10) are extracted only
from a full 32-byte response. -/
theorem check_status_length_guard (response : List Nat) :
    (response.length ≠ 32 → check_status response = none) ∧
    (∀ r, check_status response = some r →
      response.length = 32 ∧ r.err1 = response.getD 8 0 ∧
      r.err2 = response.getD 9 0 ∧ r.tapeWidth = response.getD 10 0) := by
  constructor
  · intro h
    simp [check_status, h]
  · intro r hr
    by_cases hl : response.length = 32
    · unfold check_status at hr
      rw [if_pos hl] at hr
      injection hr with h
      subst h
      exact ⟨hl, rfl, rfl, rfl⟩
    · simp [check_status, hl] at hr

/-- Witness for C6: a 3-byte response decodes to no report. -/
theorem check_status_length_guard_witness : check_status [1, 2, 3] = none :=
  (check_status_length_guard [1, 2, 3]).1 (by decide)

/-- C2 counterexample: the third band-header byte the driver writes is the
decimal literal 39 = 0x27, not 0x39. -/
theorem band_header_third_byte_decimal :
    band_header 1 ≠ [0x1B, 0x2A, 0x39, 1, 0] ∧
    band_header 1 = [0x1B, 0x2A, 0x27, 1, 0] := by
  decide

/-- C2 amended: the first write of each band transmission is the 5-byte
header 0x1B 0x2A 0x27 (decimal 39) followed by the width little-endian
(low byte `W mod 256`, high byte `(W div 256) mod 256`). -/
theorem band_header_layout (band_data : List Nat) (W : Nat) :
    (send_band_writes band_data W).getD 0 [] =
      [0x1B, 0x2A, 39, W % 256, W / 256 % 256] := by
  have h1 : W &&& 0xFF = W % 256 := by
    have h := Nat.and_pow_two_sub_one_eq_mod W 8
    norm_num at h
    exact h
  have h2 : (W >>> 8) &&& 0xFF = W / 256 % 256 := by
    rw [Nat.shiftRight_eq_div_pow]
    have h := Nat.and_pow_two_sub_one_eq_mod (W / 2 ^ 8) 8
    norm_num at h ⊢
    exact h
  simp [send_band_writes, band_header, h1, h2]

/-- Witness for C2 amended at a concrete band of width 700. -/
theorem band_header_layout_witness :
    (send_band_writes [] 700).getD 0 [] =
      [0x1B, 0x2A, 39, 700 % 256, 700 / 256 % 256] :=
  band_header_layout [] 700

/-- C5 counterexample: a 120-row canvas of width 0 is not rejected — the
encoder returns the degenerate result of 5 empty bands. -/
theorem width0_canvas_encodes_without_error :
    generate_full_bands (List.replicate 120 ([] : List Nat)) =
      some [([], 0), ([], 0), ([], 0), ([], 0), ([], 0)] := by
  decide

/-- C5 amended: any canvas whose first row has width 0 is accepted by
`generate_full_bands` and yields 5 empty bands (each 0 = 3 * 0 bytes, width
0) rather than an error; only a canvas with no rows at all is an error. -/
theorem width0_canvas_degenerate (row0 : List Nat) (rest : List (List Nat))
    (h : row0.length = 0) :
    generate_full_bands (row0 :: rest) =
      some [([], 0), ([], 0), ([], 0), ([], 0), ([], 0)] := by
  have hr : row0 = [] := List.eq_nil_of_length_eq_zero h
  subst hr
  rfl

/-- Witness for C5 amended at a concrete 120-row width-0 canvas. -/
theorem width0_canvas_degenerate_witness :
    generate_full_bands ([] :: List.replicate 119 ([] : List Nat)) =
      some [([], 0), ([], 0), ([], 0), ([], 0), ([], 0)] :=
  width0_canvas_degenerate [] (List.replicate 119 []) rfl

theorem and_one_shiftLeft_ne_zero (e b : Nat) :
    (e &&& (1 <<< b) ≠ 0) ↔ e.testBit b = true := by
  rw [Nat.one_shiftLeft, Nat.and_two_pow]
  cases h : e.testBit b <;> simp

theorem parse_status_byte_nil (e : Nat) : parse_status_byte e [] = [] := rfl

theorem mem_parse_status_byte (e b : Nat) (s : String) (rest : List (Nat × String))
    (d : String) :
    d ∈ parse_status_byte e ((b, s) :: rest) ↔
      (e.testBit b = true ∧ d = s) ∨ d ∈ parse_status_byte e rest := by
  simp only [parse_status_byte, List.filterMap_cons]
  by_cases hb : e &&& (1 <<< b) ≠ 0
  · rw [if_pos hb]
    simp [List.mem_cons, (and_one_shiftLeft_ne_zero e b).mp hb]
  · rw [if_neg hb]
    have hfalse : ¬ e.testBit b = true := fun h => hb ((and_one_shiftLeft_ne_zero e b).mpr h)
    simp [hfalse]

/-- C9: a status report is classified into exactly the named conditions whose
known bit is set — 3 bits of error-class-1 and 4 bits of error-class-2 —
with all other bits ignored; error-class-1 = 0x01 yields "NO TAPE" and
nothing else from class 1. -/
theorem classify_exact :
    (∀ e1 e2 (d : String), d ∈ classify_errors e1 e2 ↔
      ((e1.testBit 0 = true ∧ d = "NO TAPE") ∨
       (e1.testBit 1 = true ∧ d = "TAPE END") ∨
       (e1.testBit 2 = true ∧ d = "CUTTER JAM") ∨
       (e2.testBit 0 = true ∧ d = "TAPE CHANGE ERR") ∨
       (e2.testBit 1 = true ∧ d = "PRINT BUFFER FULL") ∨
       (e2.testBit 2 = true ∧ d = "TRANSMISSION ERR") ∨
       (e2.testBit 3 = true ∧ d = "RX BUFFER FULL"))) ∧
    parse_status_byte 1 err1_map = ["NO TAPE"] := by
  constructor
  · intro e1 e2 d
    simp only [classify_errors, err1_map, err2_map, List.mem_append,
      mem_parse_status_byte, parse_status_byte_nil, List.not_mem_nil, or_false]
    tauto
  · decide

/-- Witness for C9: the class-1 byte 0x01 classifies to exactly "NO TAPE". -/
theorem classify_exact_witness : parse_status_byte 1 err1_map = ["NO TAPE"] :=
  classify_exact.2

theorem poll_step_of_length (resp : List Nat) (hl : resp.length = 32) :
    poll_step resp =
      (if resp.getD 8 0 = 0 ∧ resp.getD 9 0 = 0 then PollDecision.ready
       else if resp.getD 9 0 &&& 2 ≠ 0 then PollDecision.abort
       else PollDecision.retry) := by
  unfold poll_step check_status
  rw [if_pos hl]

theorem poll_step_of_invalid (resp : List Nat) (hl : resp.length ≠ 32) :
    poll_step resp = PollDecision.retry := by
  unfold poll_step check_status
  rw [if_neg hl]

/-- C10: the readiness decision of one poll attempt depends only on bytes 8
and 9 of a valid 32-byte response — the tape-width byte and the reserved
bytes never influence it. -/
theorem poll_step_depends_only_on_error_bytes (r1 r2 : List Nat)
    (h1 : r1.length = 32) (h2 : r2.length = 32)
    (h8 : r1.getD 8 0 = r2.getD 8 0) (h9 : r1.getD 9 0 = r2.getD 9 0) :
    poll_step r1 = poll_step r2 := by
  rw [poll_step_of_length r1 h1, poll_step_of_length r2 h2, h8, h9]

/-- Witness for C10: two valid responses agreeing on the error bytes but
differing in tape width and in a reserved byte get the same decision. -/
theorem poll_step_depends_only_on_error_bytes_witness :
    poll_step ((List.replicate 32 0).set 10 12) =
      poll_step (((List.replicate 32 0).set 10 24).set 31 7) :=
  poll_step_depends_only_on_error_bytes _ _ (by decide) (by decide) (by decide) (by decide)

theorem poll_step_eq_ready (resp : List Nat) :
    poll_step resp = PollDecision.ready ↔ status_ready resp := by
  by_cases hl : resp.length = 32
  · by_cases h8 : resp.getD 8 0 = 0 <;> by_cases h9 : resp.getD 9 0 = 0 <;>
      simp [poll_step, check_status, status_ready, hl, h8, h9] <;>
      split <;> simp_all
  · simp [poll_step, check_status, status_ready, hl]

theorem poll_step_eq_abort (resp : List Nat) :
    poll_step resp = PollDecision.abort ↔ status_abort resp := by
  have hbit : ∀ e : Nat, (e &&& 2 ≠ 0) ↔ e.testBit 1 = true := by
    intro e
    have h := and_one_shiftLeft_ne_zero e 1
    norm_num at h
    exact h
  by_cases hl : resp.length = 32
  · rw [poll_step_of_length resp hl]
    simp only [status_abort, hl, true_and]
    by_cases h9 : (resp.getD 9 0).testBit 1
    · have h9and : resp.getD 9 0 &&& 2 ≠ 0 := (hbit _).mpr h9
      have h9ne : resp.getD 9 0 ≠ 0 := by
        intro h0
        rw [h0] at h9
        simp [Nat.testBit] at h9
      have hno : ¬(resp.getD 8 0 = 0 ∧ resp.getD 9 0 = 0) := fun hc => h9ne hc.2
      rw [if_neg hno, if_pos h9and]
      simp only [true_iff]
      simpa using h9
    · have h9and : resp.getD 9 0 &&& 2 = 0 := by
        by_contra hc
        exact h9 ((hbit _).mp hc)
      by_cases h89 : (resp.getD 8 0 = 0 ∧ resp.getD 9 0 = 0)
      · rw [if_pos h89]
        simp only [iff_false, reduceCtorEq, false_iff]
        simpa using h9
      · rw [if_neg h89, if_neg (fun hc => hc h9and)]
        simp only [iff_false, reduceCtorEq, false_iff]
        simpa using h9
  · rw [poll_step_of_invalid resp hl]
    simp [status_abort, hl]

theorem poll_step_eq_retry (resp : List Nat) :
    poll_step resp = PollDecision.retry ↔
      ¬ status_ready resp ∧ ¬ status_abort resp := by
  constructor
  · intro h
    constructor
    · intro hs
      rw [← poll_step_eq_ready] at hs
      rw [h] at hs
      exact PollDecision.noConfusion hs
    · intro hs
      rw [← poll_step_eq_abort] at hs
      rw [h] at hs
      exact PollDecision.noConfusion hs
  · intro hra
    cases hp : poll_step resp
    · exact absurd ((poll_step_eq_ready resp).mp hp) hra.1
    · exact absurd ((poll_step_eq_abort resp).mp hp) hra.2
    · rfl

theorem wait_aux_le (responses : Nat → List Nat) :
    ∀ fuel i, (wait_aux responses i fuel).2 ≤ i + fuel := by
  intro fuel
  induction fuel with
  | zero => intro i; simp [wait_aux]
  | succ n ih =>
    intro i
    unfold wait_aux
    cases hp : poll_step (responses i)
    · show i + 1 ≤ i + (n + 1)
      omega
    · show i + 1 ≤ i + (n + 1)
      omega
    · show (wait_aux responses (i + 1) n).2 ≤ i + (n + 1)
      have := ih (i + 1)
      omega

theorem wait_aux_ready_at (responses : Nat → List Nat) :
    ∀ t fuel i, t < fuel →
      (∀ j, j < t → poll_step (responses (i + j)) = PollDecision.retry) →
      poll_step (responses (i + t)) = PollDecision.ready →
      wait_aux responses i fuel = (true, i + t + 1) := by
  intro t
  induction t with
  | zero =>
    intro fuel i hf hbefore hready
    cases fuel with
    | zero => omega
    | succ n =>
      rw [Nat.add_zero] at hready
      unfold wait_aux
      rw [hready]
  | succ t ih =>
    intro fuel i hf hbefore hready
    cases fuel with
    | zero => omega
    | succ n =>
      have h0 : poll_step (responses i) = PollDecision.retry := by
        have h := hbefore 0 (Nat.succ_pos t)
        rwa [Nat.add_zero] at h
      unfold wait_aux
      rw [h0]
      have hrec := ih n (i + 1) (by omega)
        (fun j hj => by
          have h := hbefore (j + 1) (by omega)
          rwa [show i + (j + 1) = i + 1 + j by omega] at h)
        (by rwa [show i + 1 + t = i + (t + 1) by omega])
      rw [hrec]
      simp only [Prod.mk.injEq, true_and]
      omega

theorem wait_aux_abort_at (responses : Nat → List Nat) :
    ∀ t fuel i, t < fuel →
      (∀ j, j < t → poll_step (responses (i + j)) = PollDecision.retry) →
      poll_step (responses (i + t)) = PollDecision.abort →
      wait_aux responses i fuel = (false, i + t + 1) := by
  intro t
  induction t with
  | zero =>
    intro fuel i hf hbefore habort
    cases fuel with
    | zero => omega
    | succ n =>
      rw [Nat.add_zero] at habort
      unfold wait_aux
      rw [habort]
  | succ t ih =>
    intro fuel i hf hbefore habort
    cases fuel with
    | zero => omega
    | succ n =>
      have h0 : poll_step (responses i) = PollDecision.retry := by
        have h := hbefore 0 (Nat.succ_pos t)
        rwa [Nat.add_zero] at h
      unfold wait_aux
      rw [h0]
      have hrec := ih n (i + 1) (by omega)
        (fun j hj => by
          have h := hbefore (j + 1) (by omega)
          rwa [show i + (j + 1) = i + 1 + j by omega] at h)
        (by rwa [show i + 1 + t = i + (t + 1) by omega])
      rw [hrec]
      simp only [Prod.mk.injEq, true_and]
      omega

theorem wait_aux_all_retry (responses : Nat → List Nat) :
    ∀ fuel i, (∀ j, j < fuel → poll_step (responses (i + j)) = PollDecision.retry) →
      wait_aux responses i fuel = (false, i + fuel) := by
  intro fuel
  induction fuel with
  | zero => intro i h; simp [wait_aux]
  | succ n ih =>
    intro i h
    have h0 : poll_step (responses i) = PollDecision.retry := by
      have hh := h 0 (by omega)
      rwa [Nat.add_zero] at hh
    unfold wait_aux
    rw [h0]
    have hrec := ih (i + 1)
      (fun j hj => by
        have hh := h (j + 1) (by omega)
        rwa [show i + (j + 1) = i + 1 + j by omega] at hh)
    rw [hrec]
    simp only [Prod.mk.injEq, true_and]
    omega

/-- C1 counterexample: a device whose first polled status is a valid 32-byte
response with error-class-2 bit 3 (rx-buffer-full) set is not aborted
immediately — the loop keeps polling and even returns Ready on the second
poll, because the source tests `response[9] & 2` (bit 1), not bit 3. -/
theorem rx_buffer_full_not_aborted :
    (rx_then_clear 0).length = 32 ∧
    ((rx_then_clear 0).getD 9 0).testBit 3 = true ∧
    wait_for_printer_ready rx_then_clear = (true, 2) := by
  decide

/-- C1 amended: the ready-wait loop returns NotReady immediately — without
using any further attempts — the first time a valid 32-byte status is
observed whose error-class-2 byte (byte 9) has bit 1 (print-buffer-full,
the `response[9] & 2` test) set. -/
theorem abort_on_print_buffer_full (responses : Nat → List Nat) (i : Nat)
    (hi : i < 5)
    (hbefore : ∀ j, j < i → ¬ status_ready (responses j) ∧ ¬ status_abort (responses j))
    (habort : status_abort (responses i)) :
    wait_for_printer_ready responses = (false, i + 1) := by
  have h := wait_aux_abort_at responses i 5 0 hi
    (fun j hj => by
      rw [Nat.zero_add]
      exact (poll_step_eq_retry _).mpr (hbefore j hj))
    (by rw [Nat.zero_add]; exact (poll_step_eq_abort _).mpr habort)
  simpa [wait_for_printer_ready] using h

/-- Witness for C1 amended: a device always reporting print-buffer-full is
aborted on the very first poll. -/
theorem abort_on_print_buffer_full_witness :
    wait_for_printer_ready (fun _ => print_buffer_full_status) = (false, 1) :=
  abort_on_print_buffer_full (fun _ => print_buffer_full_status) 0 (by omega)
    (fun j hj => absurd hj (Nat.not_lt_zero j)) (by decide)

/-- C7 counterexample: the third status the device would deliver is valid
with both error bytes zero, yet the loop returns NotReady after a single
poll, because the first status triggers the print-buffer-full abort. -/
theorem ready_status_preempted_by_abort :
    (abort_then_clear 2).length = 32 ∧
    (abort_then_clear 2).getD 8 0 = 0 ∧
    (abort_then_clear 2).getD 9 0 = 0 ∧
    wait_for_printer_ready abort_then_clear = (false, 1) := by
  decide

/-- C7 amended: the loop never uses more than 5 polls; it returns Ready at
the first polled status that is valid with both error bytes zero, provided
no earlier poll triggered a return condition (ready or abort); and it
returns NotReady after exactly 5 polls when none of the first five statuses
satisfies a return condition. -/
theorem await_ready_bounded (responses : Nat → List Nat) :
    (wait_for_printer_ready responses).2 ≤ 5 ∧
    (∀ i, i < 5 → status_ready (responses i) →
      (∀ j, j < i → ¬ status_ready (responses j) ∧ ¬ status_abort (responses j)) →
      wait_for_printer_ready responses = (true, i + 1)) ∧
    ((∀ j, j < 5 → ¬ status_ready (responses j) ∧ ¬ status_abort (responses j)) →
      wait_for_printer_ready responses = (false, 5)) := by
  refine ⟨?_, ?_, ?_⟩
  · exact wait_aux_le responses 5 0
  · intro i hi hready hbefore
    have h := wait_aux_ready_at responses i 5 0 hi
      (fun j hj => by
        rw [Nat.zero_add]
        exact (poll_step_eq_retry _).mpr (hbefore j hj))
      (by rw [Nat.zero_add]; exact (poll_step_eq_ready _).mpr hready)
    simpa [wait_for_printer_ready] using h
  · intro hall
    have h := wait_aux_all_retry responses 5 0
      (fun j hj => by
        rw [Nat.zero_add]
        exact (poll_step_eq_retry _).mpr (hall j hj))
    simpa [wait_for_printer_ready] using h

/-- Witness for C7 amended: a device that is immediately error-free is
declared Ready on the first poll. -/
theorem await_ready_bounded_witness :
    wait_for_printer_ready (fun _ => zero_status) = (true, 1) :=
  (await_ready_bounded (fun _ => zero_status)).2.1 0 (by omega) (by decide)
    (fun j hj => absurd hj (Nat.not_lt_zero j))

theorem band_bytes_length (canvas : List (List Nat)) (start w : Nat) :
    (band_bytes canvas start w).length = 3 * w := by
  unfold band_bytes
  rw [List.length_flatten, List.map_map]
  have hmap : List.map (List.length ∘ fun x => encode3 (col_bits canvas start x))
      (List.range w) = List.map (fun _ => 3) (List.range w) :=
    List.map_congr_left (fun y _ => rfl)
  rw [hmap, List.map_const', List.length_range, List.sum_const_nat]
  omega

/-- C4: for any canvas of uniform width W ≥ 1 and height 120, the encoder
succeeds and returns exactly 5 bands in band-index order — band i starts at
row i * 24 — each holding 3 * W bytes together with the width W. -/
theorem encode_five_bands (canvas : List (List Nat)) (W : Nat)
    (hW : ∀ row ∈ canvas, row.length = W) (hH : canvas.length = 120)
    (hpos : 1 ≤ W) :
    ∃ bands, generate_full_bands canvas = some bands ∧
      bands.length = 5 ∧
      ∀ i, i < 5 →
        bands.getD i ([], 0) = (band_bytes canvas (i * BAND_HEIGHT) W, W) ∧
        (bands.getD i ([], 0)).1.length = 3 * W := by
  cases canvas with
  | nil => simp at hH
  | cons row0 rest =>
    have hrow0 : row0.length = W := hW row0 (List.mem_cons_self _ _)
    subst hrow0
    refine ⟨_, rfl, by simp, ?_⟩
    intro i hi
    interval_cases i <;>
      exact ⟨rfl, band_bytes_length _ _ _⟩

/-- Witness for C4 at a concrete width-1, height-120 canvas. -/
theorem encode_five_bands_witness :
    ∃ bands, generate_full_bands (List.replicate 120 [1]) = some bands ∧
      bands.length = 5 ∧
      ∀ i, i < 5 →
        bands.getD i ([], 0) =
          (band_bytes (List.replicate 120 [1]) (i * BAND_HEIGHT) 1, 1) ∧
        (bands.getD i ([], 0)).1.length = 3 * 1 :=
  encode_five_bands (List.replicate 120 [1]) 1
    (fun row hrow => by rw [List.eq_of_mem_replicate hrow]; rfl)
    (by simp) (by omega)

theorem and_255_eq_mod (w : Nat) : w &&& 0xFF = w % 256 := by
  have h := Nat.and_pow_two_sub_one_eq_mod w 8
  norm_num at h
  exact h

theorem encode3_eq (w : Nat) :
    encode3 w = [w / 65536 % 256, w / 256 % 256, w % 256] := by
  unfold encode3
  rw [Nat.shiftRight_eq_div_pow, Nat.shiftRight_eq_div_pow,
      and_255_eq_mod, and_255_eq_mod, and_255_eq_mod]

theorem getD_append_lt {α} (l1 l2 : List α) (n : Nat) (d : α) (h : n < l1.length) :
    (l1 ++ l2).getD n d = l1.getD n d := by
  rw [List.getD_eq_getElem?_getD, List.getD_eq_getElem?_getD,
      List.getElem?_append_left h]

theorem getD_append_ge {α} (l1 l2 : List α) (n : Nat) (d : α) (h : l1.length ≤ n) :
    (l1 ++ l2).getD n d = l2.getD (n - l1.length) d := by
  rw [List.getD_eq_getElem?_getD, List.getD_eq_getElem?_getD,
      List.getElem?_append_right h]

theorem getD_mem_of_lt {α} (l : List α) (n : Nat) (d : α) (h : n < l.length) :
    l.getD n d ∈ l := by
  rw [List.getD_eq_getElem?_getD, List.getElem?_eq_getElem h]
  exact List.getElem_mem h

theorem flatten_getD_uniform {α} (d : α) (k : Nat) :
    ∀ L : List (List α), (∀ l ∈ L, l.length = k) →
      ∀ x j, x < L.length → j < k →
        L.flatten.getD (k * x + j) d = (L.getD x []).getD j d := by
  intro L
  induction L with
  | nil =>
    intro _ x j hx _
    simp at hx
  | cons a L ih =>
    intro hk x j hx hj
    have ha : a.length = k := hk a (List.mem_cons_self a L)
    cases x with
    | zero =>
      rw [List.flatten_cons, Nat.mul_zero, Nat.zero_add,
          getD_append_lt a L.flatten j d (by omega)]
      rfl
    | succ y =>
      rw [List.flatten_cons,
          show k * (y + 1) + j = a.length + (k * y + j) by rw [ha]; ring,
          getD_append_ge a L.flatten _ d (Nat.le_add_right _ _),
          Nat.add_sub_cancel_left]
      rw [ih (fun l hl => hk l (List.mem_cons_of_mem a hl)) y j (by simpa using hx) hj]
      rfl

theorem getD_map_range {α} (f : Nat → α) (n i : Nat) (d : α) (h : i < n) :
    (List.map f (List.range n)).getD i d = f i := by
  rw [List.getD_eq_getElem?_getD, List.getElem?_map,
      List.getElem?_eq_getElem (by simpa using h)]
  simp

theorem col_bits_go_testBit (canvas : List (List Nat)) (start x : Nat)
    (l : List Nat) (k : Nat) :
    ∀ acc : Nat,
      ((l.foldl (fun acc bit_offset =>
          if start + bit_offset < canvas.length ∧
              (canvas.getD (start + bit_offset) []).getD x 0 ≠ 0 then
            acc ||| (1 <<< (23 - bit_offset))
          else acc) acc).testBit k)
        = (acc.testBit k ||
            l.any (fun bo => decide (23 - bo = k) &&
              decide (start + bo < canvas.length ∧
                (canvas.getD (start + bo) []).getD x 0 ≠ 0))) := by
  induction l with
  | nil =>
    intro acc
    simp
  | cons b l ih =>
    intro acc
    simp only [List.foldl_cons, List.any_cons]
    rw [ih]
    by_cases hb : start + b < canvas.length ∧ (canvas.getD (start + b) []).getD x 0 ≠ 0
    · rw [if_pos hb]
      rw [decide_eq_true hb, Bool.and_true]
      rw [Nat.testBit_or, Nat.one_shiftLeft, Nat.testBit_two_pow]
      by_cases hk : 23 - b = k
      · rw [decide_eq_true hk]
        simp
      · rw [decide_eq_false hk]
        simp [Bool.or_assoc]
    · rw [if_neg hb]
      rw [decide_eq_false hb, Bool.and_false, Bool.false_or]

theorem col_bits_testBit (canvas : List (List Nat)) (start x r : Nat) (hr : r < 24) :
    (col_bits canvas start x).testBit (23 - r) =
      decide (start + r < canvas.length ∧
        (canvas.getD (start + r) []).getD x 0 ≠ 0) := by
  unfold col_bits BAND_HEIGHT
  rw [col_bits_go_testBit]
  simp only [Nat.zero_testBit, Bool.false_or]
  by_cases hP : start + r < canvas.length ∧ (canvas.getD (start + r) []).getD x 0 ≠ 0
  · rw [decide_eq_true hP, List.any_eq_true]
    exact ⟨r, List.mem_range.mpr hr, by rw [decide_eq_true rfl, decide_eq_true hP, Bool.and_self]⟩
  · rw [decide_eq_false hP, List.any_eq_false]
    intro bo hbo
    simp only [Bool.and_eq_true, decide_eq_true_eq]
    rintro ⟨hk, hcond⟩
    have hbo24 : bo < 24 := List.mem_range.mp hbo
    have hbor : bo = r := by omega
    exact hP (hbor ▸ hcond)

theorem col_bits_lt (canvas : List (List Nat)) (start x : Nat) :
    col_bits canvas start x < 2 ^ 24 := by
  unfold col_bits
  suffices h : ∀ (l : List Nat) (acc : Nat), acc < 2 ^ 24 →
      (l.foldl (fun acc bit_offset =>
        if start + bit_offset < canvas.length ∧
            (canvas.getD (start + bit_offset) []).getD x 0 ≠ 0 then
          acc ||| (1 <<< (23 - bit_offset))
        else acc) acc) < 2 ^ 24 by
    exact h _ 0 (by norm_num)
  intro l
  induction l with
  | nil =>
    intro acc hacc
    exact hacc
  | cons b l ih =>
    intro acc hacc
    simp only [List.foldl_cons]
    apply ih
    split
    · refine Nat.or_lt_two_pow hacc ?_
      rw [Nat.one_shiftLeft]
      exact Nat.pow_lt_pow_of_lt (by norm_num) (by omega)
    · exact hacc

theorem generate_full_bands_getD (canvas : List (List Nat)) (W b : Nat)
    (hW : ∀ row ∈ canvas, row.length = W) (hne : canvas ≠ []) (hb : b < 5) :
    ∃ bands, generate_full_bands canvas = some bands ∧
      bands.getD b ([], 0) = (band_bytes canvas (b * BAND_HEIGHT) W, W) := by
  cases canvas with
  | nil => exact absurd rfl hne
  | cons row0 rest =>
    have hrow0 : row0.length = W := hW row0 (List.mem_cons_self _ _)
    subst hrow0
    exact ⟨_, rfl, getD_map_range _ 5 b _ hb⟩

/-- C3: for every band index b < 5 (start row b * 24) and column x, the
encoder emits at byte offsets 3x, 3x+1, 3x+2 of the band the big-endian
3-byte encoding of the 24-bit column word, and bit (23 - r) of that word is
set iff canvas row b * 24 + r, column x equals 1 (rows at or beyond the
canvas height contribute 0). -/
theorem band_column_encoding (canvas : List (List Nat)) (W b x r : Nat)
    (hW : ∀ row ∈ canvas, row.length = W)
    (h01 : ∀ row ∈ canvas, ∀ v ∈ row, v ≤ 1)
    (hne : canvas ≠ [])
    (hb : b < 5) (hx : x < W) (hr : r < 24) :
    ∃ bands, generate_full_bands canvas = some bands ∧
      ((bands.getD b ([], 0)).1.getD (3 * x) 0 =
         col_bits canvas (b * 24) x / 65536 % 256 ∧
       (bands.getD b ([], 0)).1.getD (3 * x + 1) 0 =
         col_bits canvas (b * 24) x / 256 % 256 ∧
       (bands.getD b ([], 0)).1.getD (3 * x + 2) 0 =
         col_bits canvas (b * 24) x % 256 ∧
       col_bits canvas (b * 24) x < 2 ^ 24 ∧
       (bands.getD b ([], 0)).1.getD (3 * x) 0 * 65536 +
         (bands.getD b ([], 0)).1.getD (3 * x + 1) 0 * 256 +
         (bands.getD b ([], 0)).1.getD (3 * x + 2) 0 =
           col_bits canvas (b * 24) x ∧
       ((col_bits canvas (b * 24) x).testBit (23 - r) = true ↔
         (b * 24 + r < canvas.length ∧
           (canvas.getD (b * 24 + r) []).getD x 0 = 1))) := by
  obtain ⟨bands, hgen, hgetD⟩ := generate_full_bands_getD canvas W b hW hne hb
  refine ⟨bands, hgen, ?_⟩
  rw [hgetD]
  dsimp only
  simp only [BAND_HEIGHT]
  have hk : ∀ l ∈ List.map (fun y => encode3 (col_bits canvas (b * 24) y))
      (List.range W), l.length = 3 := by
    intro l hl
    rcases List.mem_map.mp hl with ⟨y, _, rfl⟩
    rfl
  have hlen : x < (List.map (fun y => encode3 (col_bits canvas (b * 24) y))
      (List.range W)).length := by simpa using hx
  have hgetx : (List.map (fun y => encode3 (col_bits canvas (b * 24) y))
      (List.range W)).getD x [] = encode3 (col_bits canvas (b * 24) x) :=
    getD_map_range _ W x [] hx
  have hb0 : (band_bytes canvas (b * 24) W).getD (3 * x) 0 =
      col_bits canvas (b * 24) x / 65536 % 256 := by
    have h := flatten_getD_uniform 0 3 _ hk x 0 hlen (by omega)
    rw [Nat.add_zero, hgetx, encode3_eq] at h
    exact h
  have hb1 : (band_bytes canvas (b * 24) W).getD (3 * x + 1) 0 =
      col_bits canvas (b * 24) x / 256 % 256 := by
    have h := flatten_getD_uniform 0 3 _ hk x 1 hlen (by omega)
    rw [hgetx, encode3_eq] at h
    exact h
  have hb2 : (band_bytes canvas (b * 24) W).getD (3 * x + 2) 0 =
      col_bits canvas (b * 24) x % 256 := by
    have h := flatten_getD_uniform 0 3 _ hk x 2 hlen (by omega)
    rw [hgetx, encode3_eq] at h
    exact h
  have hlt : col_bits canvas (b * 24) x < 2 ^ 24 := col_bits_lt canvas (b * 24) x
  refine ⟨hb0, hb1, hb2, hlt, ?_, ?_⟩
  · rw [hb0, hb1, hb2]
    have h24 : (2 : Nat) ^ 24 = 16777216 := by norm_num
    rw [h24] at hlt
    omega
  · rw [col_bits_testBit canvas (b * 24) x r hr, decide_eq_true_eq]
    constructor
    · rintro ⟨hrow, hcell⟩
      refine ⟨hrow, ?_⟩
      have hrowmem : canvas.getD (b * 24 + r) [] ∈ canvas :=
        getD_mem_of_lt _ _ _ hrow
      have hrlen : (canvas.getD (b * 24 + r) []).length = W := hW _ hrowmem
      have hcellmem : (canvas.getD (b * 24 + r) []).getD x 0 ∈
          canvas.getD (b * 24 + r) [] := getD_mem_of_lt _ _ _ (by omega)
      have hle := h01 _ hrowmem _ hcellmem
      omega
    · rintro ⟨hrow, hcell⟩
      exact ⟨hrow, by omega⟩

/-- Witness for C3 at a concrete width-1, height-120, all-ink canvas, band
0, column 0, relative row 0. -/
theorem band_column_encoding_witness :
    ∃ bands, generate_full_bands (List.replicate 120 [1]) = some bands ∧
      ((bands.getD 0 ([], 0)).1.getD (3 * 0) 0 =
         col_bits (List.replicate 120 [1]) (0 * 24) 0 / 65536 % 256 ∧
       (bands.getD 0 ([], 0)).1.getD (3 * 0 + 1) 0 =
         col_bits (List.replicate 120 [1]) (0 * 24) 0 / 256 % 256 ∧
       (bands.getD 0 ([], 0)).1.getD (3 * 0 + 2) 0 =
         col_bits (List.replicate 120 [1]) (0 * 24) 0 % 256 ∧
       col_bits (List.replicate 120 [1]) (0 * 24) 0 < 2 ^ 24 ∧
       (bands.getD 0 ([], 0)).1.getD (3 * 0) 0 * 65536 +
         (bands.getD 0 ([], 0)).1.getD (3 * 0 + 1) 0 * 256 +
         (bands.getD 0 ([], 0)).1.getD (3 * 0 + 2) 0 =
           col_bits (List.replicate 120 [1]) (0 * 24) 0 ∧
       ((col_bits (List.replicate 120 [1]) (0 * 24) 0).testBit (23 - 0) = true ↔
         (0 * 24 + 0 < (List.replicate 120 ([1] : List Nat)).length ∧
           ((List.replicate 120 [1]).getD (0 * 24 + 0) []).getD 0 0 = 1))) :=
  band_column_encoding (List.replicate 120 [1]) 1 0 0 0
    (fun row hrow => by rw [List.eq_of_mem_replicate hrow]; rfl)
    (fun row hrow v hv => by
      rw [List.eq_of_mem_replicate hrow] at hv
      simp at hv
      omega)
    (by simp) (by omega) (by omega) (by omega)

end PTPC
